import Mathlib

/-!
Verification of the corrugated-sphere mesh generator.

The generator turns five scalar parameters (radius `R`, corrugation
amplitude `a`, wave count `n`, segment counts `sU` and `sV`) into a
triangulated surface (vertex positions, triangle indices, normals) and,
in the wireframe variant, into two families of polylines.

`Model.*` embeds the triangulated builder (src/model.js): `getVertices`,
`getIndices`, `getNormals`, `getFacetWeightedNormals`, and the Uint16
conversion performed by `bufferData`.  `WireModel.*` embeds the
curve-grid builder and its draw loop.  Real-number arithmetic stands in
for JavaScript doubles; machine rounding is outside the model, the
algebraic and structural content is not.
-/

namespace CorrugatedSphere

namespace Model

/-- `Model.getVertices` from src/model.js: for `i` in `0..=sU` (angle
`phi = i/sU * 2π`) and `j` in `0..=sV` (angle `v = j/sV * π`), push the
three coordinates of the surface point. -/
noncomputable def getVertices (R a : ℝ) (n : ℤ) (sU sV : ℕ) : List ℝ :=
  (List.range (sU + 1)).flatMap (fun i =>
    let phi : ℝ := ((i : ℝ) / (sU : ℝ)) * 2 * Real.pi
    (List.range (sV + 1)).flatMap (fun j =>
      let v : ℝ := ((j : ℝ) / (sV : ℝ)) * Real.pi
      let cosV := Real.cos v
      let sinV := Real.sin v
      let similarPart := R * cosV + a * (1 - sinV) * Real.cos ((n : ℝ) * phi)
      let x := similarPart * Real.cos phi
      let y := similarPart * Real.sin phi
      let z := R * sinV
      [x, y, z]))

/-- `Model.getIndices` from src/model.js: for every cell `(i, j)` with
`i < sU`, `j < sV`, push the two triangles
`(point, pointInNextRow, point+1)` and
`(point+1, pointInNextRow, pointInNextRow+1)`. -/
def getIndices (sU sV : ℕ) : List ℕ :=
  (List.range sU).flatMap (fun i =>
    (List.range sV).flatMap (fun j =>
      let point := i * (sV + 1) + j
      let pointInNextRow := point + (sV + 1)
      [point, pointInNextRow, point + 1,
       point + 1, pointInNextRow, pointInNextRow + 1]))

/-- `Model.getNormals` from src/model.js: the analytic normal of the
undisplaced sphere, `(cos v * cos phi, cos v * sin phi, sin v)`, emitted
in the same row-major order as the vertices. -/
noncomputable def getNormals (sU sV : ℕ) : List ℝ :=
  (List.range (sU + 1)).flatMap (fun i =>
    let phi : ℝ := ((i : ℝ) / (sU : ℝ)) * 2 * Real.pi
    (List.range (sV + 1)).flatMap (fun j =>
      let v : ℝ := ((j : ℝ) / (sV : ℝ)) * Real.pi
      [Real.cos v * Real.cos phi, Real.cos v * Real.sin phi, Real.sin v]))

/-- One `normals[k] += x` statement of src/model.js, on the accumulator
modelled as a total function. -/
noncomputable def addAt (acc : ℕ → ℝ) (k : ℕ) (x : ℝ) : ℕ → ℝ :=
  Function.update acc k (acc k + x)

/-- The body of one iteration of the triangle loop of
`Model.getFacetWeightedNormals`: read the three vertices of the triangle
`(i1, i2, i3)`, form the two edge vectors, their cross product and its
length, and perform the nine `+=` updates.  Out-of-range vertex reads
(impossible for indices produced by `getIndices`) default to `0`. -/
noncomputable def addTriangleNormal (vertices : List ℝ) (acc : ℕ → ℝ)
    (i1 i2 i3 : ℕ) : ℕ → ℝ :=
  let firstIndex := i1 * 3
  let secondIndex := i2 * 3
  let thirdIndex := i3 * 3
  let vtx := fun k => vertices.getD k 0
  let e1x := vtx secondIndex - vtx firstIndex
  let e1y := vtx (secondIndex + 1) - vtx (firstIndex + 1)
  let e1z := vtx (secondIndex + 2) - vtx (firstIndex + 2)
  let e2x := vtx thirdIndex - vtx firstIndex
  let e2y := vtx (thirdIndex + 1) - vtx (firstIndex + 1)
  let e2z := vtx (thirdIndex + 2) - vtx (firstIndex + 2)
  let nx := e1y * e2z - e1z * e2y
  let ny := e1z * e2x - e1x * e2z
  let nz := e1x * e2y - e1y * e2x
  let nLength := Real.sqrt (nx ^ 2 + ny ^ 2 + nz ^ 2)
  addAt (addAt (addAt
    (addAt (addAt (addAt
      (addAt (addAt (addAt acc
        firstIndex (nx * nLength)) (firstIndex + 1) (ny * nLength)) (firstIndex + 2) (nz * nLength))
      secondIndex (nx * nLength)) (secondIndex + 1) (ny * nLength)) (secondIndex + 2) (nz * nLength))
    thirdIndex (nx * nLength)) (thirdIndex + 1) (ny * nLength)) (thirdIndex + 2) (nz * nLength)

/-- The triangle loop of `Model.getFacetWeightedNormals` (`i += 3` over
the index list).  A leftover of fewer than three indices cannot arise
from `getIndices`, whose length is a multiple of six. -/
noncomputable def accumulateNormals (vertices : List ℝ) :
    List ℕ → (ℕ → ℝ) → (ℕ → ℝ)
  | i1 :: i2 :: i3 :: rest, acc =>
      accumulateNormals vertices rest (addTriangleNormal vertices acc i1 i2 i3)
  | _, acc => acc

/-- `Model.getFacetWeightedNormals` from src/model.js: zero-initialise an
accumulator of the vertex array's length, run the triangle loop, then
divide every coordinate by the length of its own vertex's accumulated
3-vector (the base of the triple holding flat slot `k` is `3 * (k / 3)`). -/
noncomputable def getFacetWeightedNormals (vertices : List ℝ)
    (indices : List ℕ) : List ℝ :=
  let acc := accumulateNormals vertices indices (fun _ => 0)
  (List.range vertices.length).map (fun k =>
    let b := 3 * (k / 3)
    let nLength := Real.sqrt (acc b ^ 2 + acc (b + 1) ^ 2 + acc (b + 2) ^ 2)
    acc k / nLength)

/-- `new Uint16Array(indices)` in `Model.bufferData`: each stored index
is the generated index reduced modulo `2^16 = 65536`. -/
def uploadedIndices (sU sV : ℕ) : List ℕ :=
  (getIndices sU sV).map (fun x => x % 65536)

end Model

/- ===== Embedding of the curve-grid (wireframe) builder ===== -/

namespace WireModel

/-- `Model.createUVertices` from the wireframe source: outer loop over
`i` (`phi` fixed per run of the inner loop), inner loop over `j`, so the
flat buffer is one contiguous constant-`phi` polyline per `i`.  The
constructor there sets `segmentsU = segmentsV = linesCount`; the method
body only uses the two fields, embedded here as separate arguments. -/
noncomputable def createUVertices (R a : ℝ) (n : ℤ) (sU sV : ℕ) : List ℝ :=
  (List.range (sU + 1)).flatMap (fun i =>
    let phi : ℝ := ((i : ℝ) / (sU : ℝ)) * 2 * Real.pi
    (List.range (sV + 1)).flatMap (fun j =>
      let v : ℝ := ((j : ℝ) / (sV : ℝ)) * Real.pi
      let cosV := Real.cos v
      let sinV := Real.sin v
      let similarPart := R * cosV + a * (1 - sinV) * Real.cos ((n : ℝ) * phi)
      let x := similarPart * Real.cos phi
      let y := similarPart * Real.sin phi
      let z := R * sinV
      [x, y, z]))

/-- `Model.createVVertices` from the wireframe source: outer loop over
`j` (`v` fixed), inner loop over `i`, one contiguous constant-`v`
polyline per `j`. -/
noncomputable def createVVertices (R a : ℝ) (n : ℤ) (sU sV : ℕ) : List ℝ :=
  (List.range (sV + 1)).flatMap (fun j =>
    let v : ℝ := ((j : ℝ) / (sV : ℝ)) * Real.pi
    (List.range (sU + 1)).flatMap (fun i =>
      let phi : ℝ := ((i : ℝ) / (sU : ℝ)) * 2 * Real.pi
      let cosV := Real.cos v
      let sinV := Real.sin v
      let cosNPhi := Real.cos ((n : ℝ) * phi)
      let similarPart := R * cosV + a * (1 - sinV) * cosNPhi
      let x := similarPart * Real.cos phi
      let y := similarPart * Real.sin phi
      let z := R * sinV
      [x, y, z]))

/-- One `gl.drawArrays(gl.LINE_STRIP, first, count)` call: the start
offset (in points) into the bound flat buffer and the point count. -/
structure DrawArraysCall where
  first : ℕ
  count : ℕ

/-- The U-curve half of `Model.draw` in the wireframe source: the loop
runs `i` from `0` while `i < segmentsU`, issuing
`drawArrays(LINE_STRIP, i * (segmentsV + 1), segmentsV + 1)`. -/
def drawUCurveCalls (sU sV : ℕ) : List DrawArraysCall :=
  (List.range sU).map (fun i => ⟨i * (sV + 1), sV + 1⟩)

/-- The V-curve half of `Model.draw` in the wireframe source: the loop
runs `i` from `0` while `i < segmentsV`, issuing
`drawArrays(LINE_STRIP, i * (segmentsU + 1), segmentsU + 1)`. -/
def drawVCurveCalls (sU sV : ℕ) : List DrawArraysCall :=
  (List.range sV).map (fun i => ⟨i * (sU + 1), sU + 1⟩)

end WireModel

/- ===== Spec-side definitions (restating the claims' wording) ===== -/

/-- The surface position exactly as the spec words it: with
`phi = i/sU * 2π`, `v = j/sV * π` and
`s = R cos v + a (1 - sin v) cos (n phi)`, the point
`(s cos phi, s sin phi, R sin v)`. -/
noncomputable def specVertex (R a : ℝ) (n : ℤ) (sU sV i j : ℕ) : ℝ × ℝ × ℝ :=
  let phi : ℝ := ((i : ℝ) / (sU : ℝ)) * 2 * Real.pi
  let v : ℝ := ((j : ℝ) / (sV : ℝ)) * Real.pi
  let s : ℝ := R * Real.cos v + a * (1 - Real.sin v) * Real.cos ((n : ℝ) * phi)
  (s * Real.cos phi, s * Real.sin phi, R * Real.sin v)

/-- The consecutive index triples (triangles) of an index list; a
leftover of fewer than three indices forms no triangle. -/
def triples : List ℕ → List (ℕ × ℕ × ℕ)
  | i1 :: i2 :: i3 :: rest => (i1, i2, i3) :: triples rest
  | _ => []

/-- The spec's per-triangle contribution: the cross product of the two
edge vectors (second vertex minus first, third vertex minus first),
scaled by its own Euclidean length. -/
noncomputable def weightedCross (vertices : List ℝ) (t : ℕ × ℕ × ℕ) :
    ℝ × ℝ × ℝ :=
  let vtx := fun k => vertices.getD k 0
  let e1x := vtx (t.2.1 * 3) - vtx (t.1 * 3)
  let e1y := vtx (t.2.1 * 3 + 1) - vtx (t.1 * 3 + 1)
  let e1z := vtx (t.2.1 * 3 + 2) - vtx (t.1 * 3 + 2)
  let e2x := vtx (t.2.2 * 3) - vtx (t.1 * 3)
  let e2y := vtx (t.2.2 * 3 + 1) - vtx (t.1 * 3 + 1)
  let e2z := vtx (t.2.2 * 3 + 2) - vtx (t.1 * 3 + 2)
  let nx := e1y * e2z - e1z * e2y
  let ny := e1z * e2x - e1x * e2z
  let nz := e1x * e2y - e1y * e2x
  let nLength := Real.sqrt (nx ^ 2 + ny ^ 2 + nz ^ 2)
  (nx * nLength, ny * nLength, nz * nLength)

/-- What a weighted cross `w` credited to vertex `vi` deposits in flat
accumulator slot `m`: its x, y or z component when `m` is one of the
three slots of vertex `vi`, zero otherwise. -/
def slotDeposit (w : ℝ × ℝ × ℝ) (vi m : ℕ) : ℝ :=
  if m = vi * 3 then w.1
  else if m = vi * 3 + 1 then w.2.1
  else if m = vi * 3 + 2 then w.2.2
  else 0

/-- Total deposit of one triangle in flat slot `m`: its weighted cross
credited to each of its three vertices. -/
noncomputable def triDeposit (vertices : List ℝ) (t : ℕ × ℕ × ℕ) (m : ℕ) : ℝ :=
  slotDeposit (weightedCross vertices t) t.1 m +
    slotDeposit (weightedCross vertices t) t.2.1 m +
    slotDeposit (weightedCross vertices t) t.2.2 m

/-- The spec's accumulated (pre-normalization) value of flat slot `m`:
the sum over all triangles of their deposits in that slot. -/
noncomputable def facetAccum (vertices : List ℝ) (indices : List ℕ) (m : ℕ) : ℝ :=
  ((triples indices).map (fun t => triDeposit vertices t m)).sum

/- ===== Generic indexing lemmas for flattened loops ===== -/

/-- Length of a flattened loop whose iterations all emit `L` elements. -/
theorem range_flatMap_length {β : Type} (g : ℕ → List β) (L : ℕ) :
    ∀ (m : ℕ), (∀ k, k < m → (g k).length = L) →
      ((List.range m).flatMap g).length = m * L := by
  intro m
  induction m with
  | zero => intro _; simp
  | succ m ih =>
      intro hg
      rw [List.range_succ, List.flatMap_append, List.length_append,
        ih (fun k hk => hg k (by omega))]
      simp [hg m (by omega), Nat.succ_mul]

/-- Element of a flattened loop whose iterations all emit `L` elements:
flat position `i * L + j` reads element `j` of iteration `i`. -/
theorem range_flatMap_getElem? {β : Type} (L : ℕ) :
    ∀ (i : ℕ) (g : ℕ → List β) (m : ℕ),
      (∀ k, k < m → (g k).length = L) →
      ∀ (j : ℕ), i < m → j < L →
      ((List.range m).flatMap g)[i * L + j]? = (g i)[j]? := by
  intro i
  induction i with
  | zero =>
      intro g m hg j him hjL
      obtain ⟨m', rfl⟩ : ∃ m', m = m' + 1 := ⟨m - 1, by omega⟩
      rw [List.range_succ_eq_map, List.flatMap_cons, List.getElem?_append]
      have h0 : (g 0).length = L := hg 0 (by omega)
      simp [h0, hjL]
  | succ i ih =>
      intro g m hg j him hjL
      obtain ⟨m', rfl⟩ : ∃ m', m = m' + 1 := ⟨m - 1, by omega⟩
      rw [List.range_succ_eq_map, List.flatMap_cons, List.flatMap_map]
      have h0 : (g 0).length = L := hg 0 (by omega)
      rw [List.getElem?_append_right (by rw [h0]; nlinarith)]
      have hidx : (i + 1) * L + j - (g 0).length = i * L + j := by
        rw [h0, Nat.succ_mul]; omega
      rw [hidx]
      have := ih (fun k => g (Nat.succ k)) m'
        (fun k hk => hg (k + 1) (by omega)) j (by omega) hjL
      simpa using this

/-- Length of a doubly nested flattened loop whose inner iterations all
emit `L` elements. -/
theorem grid_length {β : Type} (L : ℕ) (F : ℕ → ℕ → List β) (P Q : ℕ)
    (hF : ∀ i j, (F i j).length = L) :
    ((List.range P).flatMap (fun x =>
      (List.range Q).flatMap (fun y => F x y))).length = P * Q * L := by
  rw [range_flatMap_length _ (Q * L) P
    (fun k _ => range_flatMap_length _ L Q (fun y _ => hF k y))]
  ring

/-- Element of a doubly nested flattened loop: flat position
`(i * Q + j) * L + c` reads element `c` of iteration `(i, j)`. -/
theorem grid_getElem? {β : Type} (L : ℕ) (F : ℕ → ℕ → List β) (P Q : ℕ)
    (hF : ∀ i j, (F i j).length = L) (i j c : ℕ)
    (hi : i < P) (hj : j < Q) (hc : c < L) :
    ((List.range P).flatMap (fun x =>
      (List.range Q).flatMap (fun y => F x y)))[(i * Q + j) * L + c]? =
      (F i j)[c]? := by
  have hidx : (i * Q + j) * L + c = i * (Q * L) + (j * L + c) := by ring
  have houter : ∀ k, k < P →
      ((List.range Q).flatMap (fun y => F k y)).length = Q * L :=
    fun k _ => range_flatMap_length _ L Q (fun y _ => hF k y)
  have hjc : j * L + c < Q * L := by nlinarith
  rw [hidx, range_flatMap_getElem? (Q * L) i _ P houter (j * L + c) hi hjc,
    range_flatMap_getElem? L j _ Q (fun l _ => hF i l) c hj hc]

/-- If mapping `f` over a list returns the list itself, `f` fixes every
member. -/
theorem map_eq_self_fix {β : Type} (f : β → β) :
    ∀ (l : List β), l.map f = l → ∀ x ∈ l, f x = x := by
  intro l
  induction l with
  | nil => intro _ x hx; cases hx
  | cons a l ih =>
      intro h x hx
      rw [List.map_cons, List.cons.injEq] at h
      rcases List.mem_cons.mp hx with hx | hx
      · rw [hx]; exact h.1
      · exact ih h.2 x hx

/- ===== Structure of the index list ===== -/

/-- `getVertices` written flatly in terms of the spec's position
formula; equal by unfolding the source-side local bindings. -/
theorem getVertices_eq (R a : ℝ) (n : ℤ) (sU sV : ℕ) :
    Model.getVertices R a n sU sV =
      (List.range (sU + 1)).flatMap (fun i =>
        (List.range (sV + 1)).flatMap (fun j =>
          [(specVertex R a n sU sV i j).1, (specVertex R a n sU sV i j).2.1,
            (specVertex R a n sU sV i j).2.2])) := rfl

/-- `getNormals` written flatly. -/
theorem getNormals_eq (sU sV : ℕ) :
    Model.getNormals sU sV =
      (List.range (sU + 1)).flatMap (fun i =>
        (List.range (sV + 1)).flatMap (fun j =>
          [Real.cos (((j : ℝ) / (sV : ℝ)) * Real.pi) *
              Real.cos (((i : ℝ) / (sU : ℝ)) * 2 * Real.pi),
            Real.cos (((j : ℝ) / (sV : ℝ)) * Real.pi) *
              Real.sin (((i : ℝ) / (sU : ℝ)) * 2 * Real.pi),
            Real.sin (((j : ℝ) / (sV : ℝ)) * Real.pi)])) := rfl

/-- `createUVertices` written flatly: it emits exactly the same points
as `getVertices`, in the same order. -/
theorem createUVertices_eq (R a : ℝ) (n : ℤ) (sU sV : ℕ) :
    WireModel.createUVertices R a n sU sV =
      (List.range (sU + 1)).flatMap (fun i =>
        (List.range (sV + 1)).flatMap (fun j =>
          [(specVertex R a n sU sV i j).1, (specVertex R a n sU sV i j).2.1,
            (specVertex R a n sU sV i j).2.2])) := rfl

/-- `createVVertices` written flatly: outer loop over `j`, inner over
`i`, same per-point formula. -/
theorem createVVertices_eq (R a : ℝ) (n : ℤ) (sU sV : ℕ) :
    WireModel.createVVertices R a n sU sV =
      (List.range (sV + 1)).flatMap (fun j =>
        (List.range (sU + 1)).flatMap (fun i =>
          [(specVertex R a n sU sV i j).1, (specVertex R a n sU sV i j).2.1,
            (specVertex R a n sU sV i j).2.2])) := rfl

/-- `getIndices` has `6` entries per grid cell, `sU * sV` cells. -/
theorem getIndices_length (sU sV : ℕ) :
    (Model.getIndices sU sV).length = sU * sV * 6 := by
  unfold Model.getIndices
  exact grid_length 6 (fun i j =>
    [i * (sV + 1) + j, i * (sV + 1) + j + (sV + 1), i * (sV + 1) + j + 1,
      i * (sV + 1) + j + 1, i * (sV + 1) + j + (sV + 1),
      i * (sV + 1) + j + (sV + 1) + 1]) sU sV (fun i j => rfl)

/-- The six index entries of grid cell `(i, j)`: with
`p = i * (sV + 1) + j` and `q = p + (sV + 1)`, the two triangles
`(p, q, p + 1)` and `(p + 1, q, q + 1)` in that order. -/
theorem getIndices_cell (sU sV i j : ℕ) (hi : i < sU) (hj : j < sV) :
    (Model.getIndices sU sV)[(i * sV + j) * 6]? =
        some (i * (sV + 1) + j) ∧
      (Model.getIndices sU sV)[(i * sV + j) * 6 + 1]? =
        some (i * (sV + 1) + j + (sV + 1)) ∧
      (Model.getIndices sU sV)[(i * sV + j) * 6 + 2]? =
        some (i * (sV + 1) + j + 1) ∧
      (Model.getIndices sU sV)[(i * sV + j) * 6 + 3]? =
        some (i * (sV + 1) + j + 1) ∧
      (Model.getIndices sU sV)[(i * sV + j) * 6 + 4]? =
        some (i * (sV + 1) + j + (sV + 1)) ∧
      (Model.getIndices sU sV)[(i * sV + j) * 6 + 5]? =
        some (i * (sV + 1) + j + (sV + 1) + 1) := by
  have hcell : ∀ c, c < 6 → (Model.getIndices sU sV)[(i * sV + j) * 6 + c]? =
      ([i * (sV + 1) + j, i * (sV + 1) + j + (sV + 1), i * (sV + 1) + j + 1,
        i * (sV + 1) + j + 1, i * (sV + 1) + j + (sV + 1),
        i * (sV + 1) + j + (sV + 1) + 1] : List ℕ)[c]? := by
    intro c hc
    unfold Model.getIndices
    exact grid_getElem? 6 (fun x y =>
      [x * (sV + 1) + y, x * (sV + 1) + y + (sV + 1), x * (sV + 1) + y + 1,
        x * (sV + 1) + y + 1, x * (sV + 1) + y + (sV + 1),
        x * (sV + 1) + y + (sV + 1) + 1]) sU sV (fun x y => rfl) i j c hi hj hc
  have h0 := hcell 0 (by omega)
  have h1 := hcell 1 (by omega)
  have h2 := hcell 2 (by omega)
  have h3 := hcell 3 (by omega)
  have h4 := hcell 4 (by omega)
  have h5 := hcell 5 (by omega)
  rw [Nat.add_zero] at h0
  exact ⟨h0, h1, h2, h3, h4, h5⟩

/-- Every generated index is below the vertex count
`(sU + 1) * (sV + 1)`. -/
theorem getIndices_mem_lt (sU sV : ℕ) :
    ∀ x ∈ Model.getIndices sU sV, x < (sU + 1) * (sV + 1) := by
  intro x hx
  unfold Model.getIndices at hx
  simp only [List.mem_flatMap, List.mem_range, List.mem_cons,
    List.not_mem_nil, or_false] at hx
  obtain ⟨i, hi, j, hj, hmem⟩ := hx
  have hmul : (i + 1) * (sV + 1) ≤ sU * (sV + 1) :=
    Nat.mul_le_mul_right _ (by omega)
  have hexp : (sU + 1) * (sV + 1) = sU * (sV + 1) + (sV + 1) := by ring
  have hexp2 : (i + 1) * (sV + 1) = i * (sV + 1) + (sV + 1) := by ring
  rcases hmem with h | h | h | h | h | h <;> omega

/-- For at least one cell in each direction, the largest possible index
`(sU + 1) * (sV + 1) - 1` is actually emitted (as the last corner of the
last cell). -/
theorem getIndices_max_mem (sU sV : ℕ) (hU : 1 ≤ sU) (hV : 1 ≤ sV) :
    (sU + 1) * (sV + 1) - 1 ∈ Model.getIndices sU sV := by
  obtain ⟨u, rfl⟩ : ∃ u, sU = u + 1 := ⟨sU - 1, by omega⟩
  obtain ⟨v, rfl⟩ : ∃ v, sV = v + 1 := ⟨sV - 1, by omega⟩
  unfold Model.getIndices
  simp only [List.mem_flatMap, List.mem_range, List.mem_cons,
    List.not_mem_nil, or_false]
  refine ⟨u, by omega, v, by omega, ?_⟩
  have h : (u + 1 + 1) * (v + 1 + 1) = u * (v + 1 + 1) + 2 * (v + 1 + 1) := by
    ring
  omega

/- ===== The facet-weighted accumulation loop as a sum over triangles ===== -/

/-- One `+=` update read back at an arbitrary slot. -/
theorem addAt_apply (acc : ℕ → ℝ) (k : ℕ) (x : ℝ) (m : ℕ) :
    Model.addAt acc k x m = acc m + if m = k then x else 0 := by
  unfold Model.addAt Function.update
  split_ifs with h
  · subst h; simp
  · simp

/-- Three consecutive `+=` updates on the slots `f`, `f+1`, `f+2` read
back at an arbitrary slot `m`. -/
theorem addTripleChain_apply (acc : ℕ → ℝ) (f : ℕ) (X Y Z : ℝ) (m : ℕ) :
    Model.addAt (Model.addAt (Model.addAt acc f X) (f + 1) Y) (f + 2) Z m =
      acc m + (if m = f then X else if m = f + 1 then Y
        else if m = f + 2 then Z else 0) := by
  simp only [addAt_apply]
  split_ifs <;> first | omega | ring

/-- One iteration of the triangle loop deposits exactly the triangle's
weighted cross into the three vertices' slots. -/
theorem addTriangleNormal_apply (vertices : List ℝ) (acc : ℕ → ℝ)
    (i1 i2 i3 : ℕ) (m : ℕ) :
    Model.addTriangleNormal vertices acc i1 i2 i3 m =
      acc m + triDeposit vertices (i1, i2, i3) m := by
  simp only [Model.addTriangleNormal, addTripleChain_apply, triDeposit,
    slotDeposit, weightedCross]
  ring

/-- The whole triangle loop, started from any accumulator, adds the sum
of all triangles' deposits to each slot. -/
theorem accumulateNormals_apply (vertices : List ℝ) :
    ∀ (indices : List ℕ) (acc : ℕ → ℝ) (m : ℕ),
      Model.accumulateNormals vertices indices acc m =
        acc m + facetAccum vertices indices m := by
  intro indices
  induction indices using triples.induct with
  | case1 i1 i2 i3 rest ih =>
      intro acc m
      rw [Model.accumulateNormals, ih, addTriangleNormal_apply]
      simp only [facetAccum, triples, List.map_cons, List.sum_cons]
      ring
  | case2 idx h1 =>
      intro acc m
      rcases idx with _ | ⟨a, _ | ⟨b, _ | ⟨c, rest⟩⟩⟩
      · simp [Model.accumulateNormals, facetAccum, triples]
      · simp [Model.accumulateNormals, facetAccum, triples]
      · simp [Model.accumulateNormals, facetAccum, triples]
      · exact (h1 a b c rest rfl).elim

/-- Length of the facet-weighted normal array. -/
theorem getFacetWeightedNormals_length (vertices : List ℝ) (indices : List ℕ) :
    (Model.getFacetWeightedNormals vertices indices).length = vertices.length := by
  simp [Model.getFacetWeightedNormals]

/-- Entry `m` of the facet-weighted normal array: the accumulated sum at
slot `m` divided by the Euclidean length of the accumulated 3-vector of
the vertex owning slot `m` (whose base slot is `3 * (m / 3)`). -/
theorem getFacetWeightedNormals_getElem? (vertices : List ℝ) (indices : List ℕ)
    (m : ℕ) (hm : m < vertices.length) :
    (Model.getFacetWeightedNormals vertices indices)[m]? =
      some (facetAccum vertices indices m /
        Real.sqrt (facetAccum vertices indices (3 * (m / 3)) ^ 2 +
          facetAccum vertices indices (3 * (m / 3) + 1) ^ 2 +
          facetAccum vertices indices (3 * (m / 3) + 2) ^ 2)) := by
  simp only [Model.getFacetWeightedNormals, List.getElem?_map,
    List.getElem?_range hm, Option.map_some']
  simp only [accumulateNormals_apply, zero_add]

/- ===== Access to the row-major vertex-style buffers ===== -/

/-- The three coordinates of grid point `(i, j)` in a flattened buffer of
coordinate triples. -/
theorem flatTriple_getElem? (G : ℕ → ℕ → ℝ × ℝ × ℝ) (P Q i j : ℕ)
    (hi : i < P) (hj : j < Q) :
    (((List.range P).flatMap (fun x => (List.range Q).flatMap (fun y =>
        [(G x y).1, (G x y).2.1, (G x y).2.2])))[3 * (i * Q + j)]? =
        some (G i j).1) ∧
      (((List.range P).flatMap (fun x => (List.range Q).flatMap (fun y =>
        [(G x y).1, (G x y).2.1, (G x y).2.2])))[3 * (i * Q + j) + 1]? =
        some (G i j).2.1) ∧
      (((List.range P).flatMap (fun x => (List.range Q).flatMap (fun y =>
        [(G x y).1, (G x y).2.1, (G x y).2.2])))[3 * (i * Q + j) + 2]? =
        some (G i j).2.2) := by
  have h := fun c hc => grid_getElem? 3
    (fun x y => [(G x y).1, (G x y).2.1, (G x y).2.2]) P Q
    (fun _ _ => rfl) i j c hi hj hc
  have h0 := h 0 (by omega)
  have h1 := h 1 (by omega)
  have h2 := h 2 (by omega)
  rw [show (i * Q + j) * 3 + 0 = 3 * (i * Q + j) from by ring] at h0
  rw [show (i * Q + j) * 3 + 1 = 3 * (i * Q + j) + 1 from by ring] at h1
  rw [show (i * Q + j) * 3 + 2 = 3 * (i * Q + j) + 2 from by ring] at h2
  exact ⟨h0, h1, h2⟩

/-- `getD` version of the triple access (as used by the vertex reads in
the facet-normal loop). -/
theorem flatTriple_getD (G : ℕ → ℕ → ℝ × ℝ × ℝ) (P Q i j : ℕ)
    (hi : i < P) (hj : j < Q) :
    (((List.range P).flatMap (fun x => (List.range Q).flatMap (fun y =>
        [(G x y).1, (G x y).2.1, (G x y).2.2]))).getD (3 * (i * Q + j)) 0 =
        (G i j).1) ∧
      (((List.range P).flatMap (fun x => (List.range Q).flatMap (fun y =>
        [(G x y).1, (G x y).2.1, (G x y).2.2]))).getD (3 * (i * Q + j) + 1) 0 =
        (G i j).2.1) ∧
      (((List.range P).flatMap (fun x => (List.range Q).flatMap (fun y =>
        [(G x y).1, (G x y).2.1, (G x y).2.2]))).getD (3 * (i * Q + j) + 2) 0 =
        (G i j).2.2) := by
  obtain ⟨h0, h1, h2⟩ := flatTriple_getElem? G P Q i j hi hj
  refine ⟨?_, ?_, ?_⟩ <;>
    rw [List.getD_eq_getElem?_getD]
  · rw [h0]; rfl
  · rw [h1]; rfl
  · rw [h2]; rfl

/-- At the seam, the spec position formula agrees exactly: the column
`i = sU` evaluates `phi = 2π` and every trigonometric factor returns to
its `phi = 0` value (the wave factor because `waveCount` is an
integer). -/
theorem specVertex_seam (R a : ℝ) (n : ℤ) (sU sV j : ℕ) (hU : 1 ≤ sU) :
    specVertex R a n sU sV 0 j = specVertex R a n sU sV sU j := by
  unfold specVertex
  have hcast : (sU : ℝ) ≠ 0 := Nat.cast_ne_zero.mpr (by omega)
  have hs : ((sU : ℝ) / (sU : ℝ)) * 2 * Real.pi = 2 * Real.pi := by
    rw [div_self hcast]; ring
  have h0 : (((0 : ℕ) : ℝ) / (sU : ℝ)) * 2 * Real.pi = 0 := by simp
  rw [h0, hs]
  simp [Real.cos_two_pi, Real.sin_two_pi, Real.cos_int_mul_two_pi]

/-- A triangle whose second vertex coincides with its first (slotwise)
has zero weighted cross product. -/
theorem weightedCross_zero_of_eq_left (vertices : List ℝ) (t : ℕ × ℕ × ℕ)
    (h0 : vertices.getD (t.2.1 * 3) 0 = vertices.getD (t.1 * 3) 0)
    (h1 : vertices.getD (t.2.1 * 3 + 1) 0 = vertices.getD (t.1 * 3 + 1) 0)
    (h2 : vertices.getD (t.2.1 * 3 + 2) 0 = vertices.getD (t.1 * 3 + 2) 0) :
    weightedCross vertices t = (0, 0, 0) := by
  simp only [weightedCross]
  rw [h0, h1, h2]
  simp

/-- A triangle whose third vertex coincides with its first (slotwise)
has zero weighted cross product. -/
theorem weightedCross_zero_of_eq_right (vertices : List ℝ) (t : ℕ × ℕ × ℕ)
    (h0 : vertices.getD (t.2.2 * 3) 0 = vertices.getD (t.1 * 3) 0)
    (h1 : vertices.getD (t.2.2 * 3 + 1) 0 = vertices.getD (t.1 * 3 + 1) 0)
    (h2 : vertices.getD (t.2.2 * 3 + 2) 0 = vertices.getD (t.1 * 3 + 2) 0) :
    weightedCross vertices t = (0, 0, 0) := by
  simp only [weightedCross]
  rw [h0, h1, h2]
  simp

/-- A zero weighted cross deposits nothing in any slot. -/
theorem slotDeposit_zero (vi m : ℕ) : slotDeposit (0, 0, 0) vi m = 0 := by
  unfold slotDeposit
  split_ifs <;> rfl

/- ===== Claims ===== -/

/-- C1: for every parameter set with `segmentsU ≥ 1` and `segmentsV ≥ 1`
the triangulated builder's vertex array holds exactly
`(segmentsU + 1) * (segmentsV + 1)` vertices of three coordinates each in
row-major order, and the vertex at flat index `i * (segmentsV + 1) + j` is
`(s cos phi, s sin phi, radius sin v)` with `phi = i/segmentsU * 2π`,
`v = j/segmentsV * π` and
`s = radius cos v + amplitude (1 - sin v) cos (waveCount * phi)`
(the triple `specVertex R a n sU sV i j`). -/
theorem C1_vertices_row_major (R a : ℝ) (n : ℤ) (sU sV : ℕ)
    (hU : 1 ≤ sU) (hV : 1 ≤ sV) :
    (Model.getVertices R a n sU sV).length = (sU + 1) * (sV + 1) * 3 ∧
    ∀ i j, i ≤ sU → j ≤ sV →
      (Model.getVertices R a n sU sV)[3 * (i * (sV + 1) + j)]? =
          some (specVertex R a n sU sV i j).1 ∧
        (Model.getVertices R a n sU sV)[3 * (i * (sV + 1) + j) + 1]? =
          some (specVertex R a n sU sV i j).2.1 ∧
        (Model.getVertices R a n sU sV)[3 * (i * (sV + 1) + j) + 2]? =
          some (specVertex R a n sU sV i j).2.2 := by
  constructor
  · rw [getVertices_eq]
    exact grid_length 3 _ _ _ (fun i j => rfl)
  · intro i j hi hj
    rw [getVertices_eq]
    exact flatTriple_getElem? (specVertex R a n sU sV) (sU + 1) (sV + 1) i j
      (by omega) (by omega)

/-- C1 witness: the theorem applied at
`R = 1, a = 0, n = 0, sU = sV = 1`. -/
theorem C1_witness :
    1 ≤ 1 ∧ 1 ≤ 1 ∧
      (Model.getVertices 1 0 0 1 1).length = (1 + 1) * (1 + 1) * 3 :=
  ⟨by decide, by decide,
    (C1_vertices_row_major 1 0 0 1 1 (by decide) (by decide)).1⟩

/-- C2: for every parameter set with `segmentsU ≥ 1` and `segmentsV ≥ 1`
the index list has length `segmentsU * segmentsV * 6`; the cell `(i, j)`
contributes, at flat offset `(i * segmentsV + j) * 6`, exactly the two
triangles `(p, q, p + 1)` and `(p + 1, q, q + 1)` in that order, where
`p = i * (segmentsV + 1) + j` and `q = p + (segmentsV + 1)`; and every
emitted index is below `(segmentsU + 1) * (segmentsV + 1)`. -/
theorem C2_index_list (sU sV : ℕ) (hU : 1 ≤ sU) (hV : 1 ≤ sV) :
    (Model.getIndices sU sV).length = sU * sV * 6 ∧
    (∀ i j, i < sU → j < sV →
      (Model.getIndices sU sV)[(i * sV + j) * 6]? =
          some (i * (sV + 1) + j) ∧
        (Model.getIndices sU sV)[(i * sV + j) * 6 + 1]? =
          some (i * (sV + 1) + j + (sV + 1)) ∧
        (Model.getIndices sU sV)[(i * sV + j) * 6 + 2]? =
          some (i * (sV + 1) + j + 1) ∧
        (Model.getIndices sU sV)[(i * sV + j) * 6 + 3]? =
          some (i * (sV + 1) + j + 1) ∧
        (Model.getIndices sU sV)[(i * sV + j) * 6 + 4]? =
          some (i * (sV + 1) + j + (sV + 1)) ∧
        (Model.getIndices sU sV)[(i * sV + j) * 6 + 5]? =
          some (i * (sV + 1) + j + (sV + 1) + 1)) ∧
    ∀ x ∈ Model.getIndices sU sV, x < (sU + 1) * (sV + 1) :=
  ⟨getIndices_length sU sV,
    fun i j hi hj => getIndices_cell sU sV i j hi hj,
    getIndices_mem_lt sU sV⟩

/-- C2 witness: the theorem applied at `sU = sV = 1`. -/
theorem C2_witness :
    1 ≤ 1 ∧ 1 ≤ 1 ∧ (Model.getIndices 1 1).length = 1 * 1 * 6 :=
  ⟨by decide, by decide, (C2_index_list 1 1 (by decide) (by decide)).1⟩

/-- C3 counterexample: at `segmentsU = 0` (with `segmentsV = 1`,
`radius = 1`, `amplitude = 0`, `waveCount = 0`) mesh generation does not
reject the input: it still returns output arrays — a vertex array of
`(0 + 1) * (1 + 1) * 3 = 6` numbers and an (empty) index list — instead
of aborting with an InvalidParameter error. -/
theorem C3_counterexample :
    Model.getIndices 0 1 = [] ∧
      (Model.getVertices 1 0 0 0 1).length = (0 + 1) * (1 + 1) * 3 ∧
      (0 + 1) * (1 + 1) * 3 ≠ 0 := by
  refine ⟨by simp [Model.getIndices], ?_, by decide⟩
  rw [getVertices_eq]
  exact grid_length 3 _ _ _ (fun i j => rfl)

/-- C3 amended: the builder performs no validation of the segment
counts.  For any parameters (including `segmentsU = 0` or
`segmentsV = 0`) generation completes and produces output arrays: the
vertex array always has `(sU + 1) * (sV + 1) * 3` entries, and a zero
segment count merely makes the index list empty; no InvalidParameter
error path exists. -/
theorem C3_no_validation (R a : ℝ) (n : ℤ) (sU sV : ℕ) :
    (Model.getVertices R a n sU sV).length = (sU + 1) * (sV + 1) * 3 ∧
      Model.getIndices 0 sV = [] ∧ Model.getIndices sU 0 = [] := by
  refine ⟨?_, by simp [Model.getIndices], by simp [Model.getIndices]⟩
  rw [getVertices_eq]
  exact grid_length 3 _ _ _ (fun i j => rfl)

/-- C7: the curve-grid builder lays the U-buffer out as `segmentsU + 1`
contiguous polylines of `segmentsV + 1` points (polyline `i` starting at
point offset `i * (segmentsV + 1)`, all its points sampled at
`phi = i/segmentsU * 2π`) and the V-buffer as `segmentsV + 1` contiguous
polylines of `segmentsU + 1` points (polyline `j` starting at
`j * (segmentsU + 1)`, all points at `v = j/segmentsV * π`), every point
given by the same position formula as the triangulated surface; at
`segmentsU = segmentsV = 3` this is 4 U-curves and 4 V-curves of 4
points each, 32 points in total. -/
theorem C7_curve_grid (R a : ℝ) (n : ℤ) (sU sV : ℕ) :
    (WireModel.createUVertices R a n sU sV).length =
        (sU + 1) * (sV + 1) * 3 ∧
    (∀ i j, i ≤ sU → j ≤ sV →
      (WireModel.createUVertices R a n sU sV)[3 * (i * (sV + 1) + j)]? =
          some (specVertex R a n sU sV i j).1 ∧
        (WireModel.createUVertices R a n sU sV)[3 * (i * (sV + 1) + j) + 1]? =
          some (specVertex R a n sU sV i j).2.1 ∧
        (WireModel.createUVertices R a n sU sV)[3 * (i * (sV + 1) + j) + 2]? =
          some (specVertex R a n sU sV i j).2.2) ∧
    (WireModel.createVVertices R a n sU sV).length =
        (sV + 1) * (sU + 1) * 3 ∧
    (∀ i j, i ≤ sU → j ≤ sV →
      (WireModel.createVVertices R a n sU sV)[3 * (j * (sU + 1) + i)]? =
          some (specVertex R a n sU sV i j).1 ∧
        (WireModel.createVVertices R a n sU sV)[3 * (j * (sU + 1) + i) + 1]? =
          some (specVertex R a n sU sV i j).2.1 ∧
        (WireModel.createVVertices R a n sU sV)[3 * (j * (sU + 1) + i) + 2]? =
          some (specVertex R a n sU sV i j).2.2) ∧
    (WireModel.createUVertices R a n 3 3).length / 3 = 16 ∧
    (WireModel.createVVertices R a n 3 3).length / 3 = 16 ∧
    (WireModel.createUVertices R a n 3 3).length / 3 +
      (WireModel.createVVertices R a n 3 3).length / 3 = 32 := by
  have hULen : ∀ (p q : ℕ), (WireModel.createUVertices R a n p q).length =
      (p + 1) * (q + 1) * 3 := by
    intro p q
    rw [createUVertices_eq]
    exact grid_length 3 _ _ _ (fun i j => rfl)
  have hVLen : ∀ (p q : ℕ), (WireModel.createVVertices R a n p q).length =
      (q + 1) * (p + 1) * 3 := by
    intro p q
    rw [createVVertices_eq]
    exact grid_length 3 _ _ _ (fun i j => rfl)
  refine ⟨hULen sU sV, ?_, hVLen sU sV, ?_, ?_, ?_, ?_⟩
  · intro i j hi hj
    rw [createUVertices_eq]
    exact flatTriple_getElem? (specVertex R a n sU sV) (sU + 1) (sV + 1) i j
      (by omega) (by omega)
  · intro i j hi hj
    rw [createVVertices_eq]
    exact flatTriple_getElem? (fun y x => specVertex R a n sU sV x y)
      (sV + 1) (sU + 1) j i (by omega) (by omega)
  · rw [hULen 3 3]
  · rw [hVLen 3 3]
  · rw [hULen 3 3, hVLen 3 3]

/-- C8: `getNormals` emits at the row-major position of vertex `(i, j)`
the unit normal of the undisplaced sphere,
`(cos v cos phi, cos v sin phi, sin v)` with `phi = i/segmentsU * 2π`
and `v = j/segmentsV * π`, and every such normal has unit length. -/
theorem C8_analytic_normals (sU sV : ℕ) (hU : 1 ≤ sU) (hV : 1 ≤ sV) :
    (Model.getNormals sU sV).length = (sU + 1) * (sV + 1) * 3 ∧
    ∀ i j, i ≤ sU → j ≤ sV →
      (Model.getNormals sU sV)[3 * (i * (sV + 1) + j)]? =
          some (Real.cos (((j : ℝ) / (sV : ℝ)) * Real.pi) *
            Real.cos (((i : ℝ) / (sU : ℝ)) * 2 * Real.pi)) ∧
        (Model.getNormals sU sV)[3 * (i * (sV + 1) + j) + 1]? =
          some (Real.cos (((j : ℝ) / (sV : ℝ)) * Real.pi) *
            Real.sin (((i : ℝ) / (sU : ℝ)) * 2 * Real.pi)) ∧
        (Model.getNormals sU sV)[3 * (i * (sV + 1) + j) + 2]? =
          some (Real.sin (((j : ℝ) / (sV : ℝ)) * Real.pi)) ∧
        (Real.cos (((j : ℝ) / (sV : ℝ)) * Real.pi) *
              Real.cos (((i : ℝ) / (sU : ℝ)) * 2 * Real.pi)) ^ 2 +
            (Real.cos (((j : ℝ) / (sV : ℝ)) * Real.pi) *
              Real.sin (((i : ℝ) / (sU : ℝ)) * 2 * Real.pi)) ^ 2 +
            Real.sin (((j : ℝ) / (sV : ℝ)) * Real.pi) ^ 2 = 1 := by
  constructor
  · rw [getNormals_eq]
    exact grid_length 3 _ _ _ (fun i j => rfl)
  · intro i j hi hj
    have h := flatTriple_getElem?
      (fun x y => (Real.cos (((y : ℝ) / (sV : ℝ)) * Real.pi) *
          Real.cos (((x : ℝ) / (sU : ℝ)) * 2 * Real.pi),
        Real.cos (((y : ℝ) / (sV : ℝ)) * Real.pi) *
          Real.sin (((x : ℝ) / (sU : ℝ)) * 2 * Real.pi),
        Real.sin (((y : ℝ) / (sV : ℝ)) * Real.pi)))
      (sU + 1) (sV + 1) i j (by omega) (by omega)
    rw [getNormals_eq]
    refine ⟨h.1, h.2.1, h.2.2, ?_⟩
    set phi := ((i : ℝ) / (sU : ℝ)) * 2 * Real.pi
    set v := ((j : ℝ) / (sV : ℝ)) * Real.pi
    calc (Real.cos v * Real.cos phi) ^ 2 + (Real.cos v * Real.sin phi) ^ 2 +
          Real.sin v ^ 2
        = Real.cos v ^ 2 * (Real.sin phi ^ 2 + Real.cos phi ^ 2) +
            Real.sin v ^ 2 := by ring
      _ = 1 := by
          rw [Real.sin_sq_add_cos_sq, mul_one]
          have := Real.sin_sq_add_cos_sq v
          linarith

/-- C8 witness: the theorem applied at `sU = sV = 1`. -/
theorem C8_witness :
    1 ≤ 1 ∧ 1 ≤ 1 ∧ (Model.getNormals 1 1).length = (1 + 1) * (1 + 1) * 3 :=
  ⟨by decide, by decide, (C8_analytic_normals 1 1 (by decide) (by decide)).1⟩

/-- C9 counterexample: at `segmentsU = segmentsV = 3` the wireframe draw
loop issues only 3 U-curve draw calls and 3 V-curve draw calls — not the
4 of each that the claim requires — and no issued call starts at the
offset `3 * (3 + 1) = 12` of the last polyline, so that polyline is
omitted. -/
theorem C9_counterexample :
    (WireModel.drawUCurveCalls 3 3).length = 3 ∧
      (WireModel.drawVCurveCalls 3 3).length = 3 ∧
      (∀ call ∈ WireModel.drawUCurveCalls 3 3, call.first ≠ 3 * (3 + 1)) ∧
      (∀ call ∈ WireModel.drawVCurveCalls 3 3, call.first ≠ 3 * (3 + 1)) := by
  refine ⟨by decide, by decide, by decide, by decide⟩

/-- C9 amended: the wireframe draw loop issues one independent
line-strip draw call per polyline for the **first `segmentsU`** U-curves
(`i` in `0..segmentsU-1`, each of `segmentsV + 1` vertices starting at
point offset `i * (segmentsV + 1)`) and the **first `segmentsV`**
V-curves (`j` in `0..segmentsV-1`, each of `segmentsU + 1` vertices
starting at `j * (segmentsU + 1)`); the final polyline of each family
(`i = segmentsU`, resp. `j = segmentsV`) is not drawn. -/
theorem C9_draw_calls (sU sV : ℕ) :
    (WireModel.drawUCurveCalls sU sV).length = sU ∧
    (∀ i, i < sU → (WireModel.drawUCurveCalls sU sV)[i]? =
      some ⟨i * (sV + 1), sV + 1⟩) ∧
    (WireModel.drawVCurveCalls sU sV).length = sV ∧
    (∀ j, j < sV → (WireModel.drawVCurveCalls sU sV)[j]? =
      some ⟨j * (sU + 1), sU + 1⟩) := by
  refine ⟨by simp [WireModel.drawUCurveCalls], ?_,
    by simp [WireModel.drawVCurveCalls], ?_⟩
  · intro i hi
    simp [WireModel.drawUCurveCalls, List.getElem?_range hi]
  · intro j hj
    simp [WireModel.drawVCurveCalls, List.getElem?_range hj]

/-- C4: `getFacetWeightedNormals` implements exactly the face-weighted
strategy.  Starting from a zero accumulator of the vertex array's
length, every consecutive index triple contributes the cross product of
its two edge vectors scaled by that cross product's own length
(`weightedCross`, i.e. `cross * |cross|`, not a plain sum) to the
accumulators of its three vertices (`facetAccum` is that sum), and the
returned array divides every accumulated coordinate by the Euclidean
length of its vertex's accumulated 3-vector. -/
theorem C4_facet_weighted_strategy (vertices : List ℝ) (indices : List ℕ) :
    (Model.getFacetWeightedNormals vertices indices).length =
        vertices.length ∧
    ∀ m, m < vertices.length →
      (Model.getFacetWeightedNormals vertices indices)[m]? =
        some (facetAccum vertices indices m /
          Real.sqrt (facetAccum vertices indices (3 * (m / 3)) ^ 2 +
            facetAccum vertices indices (3 * (m / 3) + 1) ^ 2 +
            facetAccum vertices indices (3 * (m / 3) + 2) ^ 2)) :=
  ⟨getFacetWeightedNormals_length vertices indices,
    fun m hm => getFacetWeightedNormals_getElem? vertices indices m hm⟩

/-- C6: for integer `waveCount` the positions of the seam vertices
`(0, j)` and `(segmentsU, j)` agree exactly (over the reals, `phi` wraps
a full `2π`), for every `j`; the two rows are nevertheless stored at
distinct flat positions, both inside the vertex array, so the seam is
not deduplicated. -/
theorem C6_seam_duplicated (R a : ℝ) (n : ℤ) (sU sV : ℕ) (hU : 1 ≤ sU) :
    ∀ j, j ≤ sV →
      ((Model.getVertices R a n sU sV)[3 * (0 * (sV + 1) + j)]? =
          (Model.getVertices R a n sU sV)[3 * (sU * (sV + 1) + j)]?) ∧
      ((Model.getVertices R a n sU sV)[3 * (0 * (sV + 1) + j) + 1]? =
          (Model.getVertices R a n sU sV)[3 * (sU * (sV + 1) + j) + 1]?) ∧
      ((Model.getVertices R a n sU sV)[3 * (0 * (sV + 1) + j) + 2]? =
          (Model.getVertices R a n sU sV)[3 * (sU * (sV + 1) + j) + 2]?) ∧
      (0 * (sV + 1) + j ≠ sU * (sV + 1) + j) ∧
      (3 * (sU * (sV + 1) + j) + 2 <
        (Model.getVertices R a n sU sV).length) := by
  intro j hj
  have hlen : (Model.getVertices R a n sU sV).length =
      (sU + 1) * (sV + 1) * 3 := by
    rw [getVertices_eq]
    exact grid_length 3 _ _ _ (fun i j => rfl)
  have h0 : (Model.getVertices R a n sU sV)[3 * (0 * (sV + 1) + j)]? =
        some (specVertex R a n sU sV 0 j).1 ∧
      (Model.getVertices R a n sU sV)[3 * (0 * (sV + 1) + j) + 1]? =
        some (specVertex R a n sU sV 0 j).2.1 ∧
      (Model.getVertices R a n sU sV)[3 * (0 * (sV + 1) + j) + 2]? =
        some (specVertex R a n sU sV 0 j).2.2 := by
    rw [getVertices_eq]
    exact flatTriple_getElem? (specVertex R a n sU sV) (sU + 1) (sV + 1) 0 j
      (by omega) (by omega)
  have h1 : (Model.getVertices R a n sU sV)[3 * (sU * (sV + 1) + j)]? =
        some (specVertex R a n sU sV sU j).1 ∧
      (Model.getVertices R a n sU sV)[3 * (sU * (sV + 1) + j) + 1]? =
        some (specVertex R a n sU sV sU j).2.1 ∧
      (Model.getVertices R a n sU sV)[3 * (sU * (sV + 1) + j) + 2]? =
        some (specVertex R a n sU sV sU j).2.2 := by
    rw [getVertices_eq]
    exact flatTriple_getElem? (specVertex R a n sU sV) (sU + 1) (sV + 1) sU j
      (by omega) (by omega)
  have hseam := specVertex_seam R a n sU sV j hU
  refine ⟨?_, ?_, ?_, ?_, ?_⟩
  · rw [h0.1, h1.1, hseam]
  · rw [h0.2.1, h1.2.1, hseam]
  · rw [h0.2.2, h1.2.2, hseam]
  · have hmul : sV + 1 ≤ sU * (sV + 1) := by
      have := Nat.mul_le_mul_right (sV + 1) hU
      omega
    omega
  · rw [hlen]
    have hmul : (sU + 1) * (sV + 1) = sU * (sV + 1) + (sV + 1) := by ring
    have hmul2 : (sU * (sV + 1) + (sV + 1)) * 3 =
        sU * (sV + 1) * 3 + (sV + 1) * 3 := by ring
    have hmul3 : (sU * (sV + 1) + j) * 3 = sU * (sV + 1) * 3 + j * 3 := by
      ring
    have h32 : 3 * (sU * (sV + 1) + j) = (sU * (sV + 1) + j) * 3 := by ring
    omega

/-- C6 witness: the theorem applied at
`R = 1, a = 1, n = 2, sU = sV = 1`. -/
theorem C6_witness :
    1 ≤ 1 ∧
      ((Model.getVertices 1 1 2 1 1)[3 * (0 * (1 + 1) + 0)]? =
        (Model.getVertices 1 1 2 1 1)[3 * (1 * (1 + 1) + 0)]?) :=
  ⟨by decide, (C6_seam_duplicated 1 1 2 1 1 (by decide) 0 (by decide)).1⟩

/-- C5 amended: a per-vertex facet-weighted normal is unit length
whenever that vertex's accumulated 3-vector is nonzero; the final
division is by that vector's Euclidean length and is a division by zero
exactly when the accumulator is the zero vector — a case that IS
reachable for valid parameters (see the counterexample) and is not
guarded. -/
theorem C5_unit_normals_when_accum_nonzero (vertices : List ℝ)
    (indices : List ℕ) (k : ℕ) (hk : 3 * k + 2 < vertices.length)
    (hnz : ¬ (facetAccum vertices indices (3 * k) = 0 ∧
      facetAccum vertices indices (3 * k + 1) = 0 ∧
      facetAccum vertices indices (3 * k + 2) = 0)) :
    ∃ nx ny nz : ℝ,
      (Model.getFacetWeightedNormals vertices indices)[3 * k]? = some nx ∧
      (Model.getFacetWeightedNormals vertices indices)[3 * k + 1]? =
        some ny ∧
      (Model.getFacetWeightedNormals vertices indices)[3 * k + 2]? =
        some nz ∧
      nx ^ 2 + ny ^ 2 + nz ^ 2 = 1 := by
  set A := facetAccum vertices indices (3 * k) with hA
  set B := facetAccum vertices indices (3 * k + 1) with hB
  set C := facetAccum vertices indices (3 * k + 2) with hC
  have hS : 0 < A ^ 2 + B ^ 2 + C ^ 2 := by
    rcases not_and_or.mp hnz with h | h
    · have : 0 < A ^ 2 := (sq_nonneg A).lt_of_ne (Ne.symm (pow_ne_zero 2 h))
      nlinarith [sq_nonneg B, sq_nonneg C]
    · rcases not_and_or.mp h with h | h
      · have : 0 < B ^ 2 := (sq_nonneg B).lt_of_ne (Ne.symm (pow_ne_zero 2 h))
        nlinarith [sq_nonneg A, sq_nonneg C]
      · have : 0 < C ^ 2 := (sq_nonneg C).lt_of_ne (Ne.symm (pow_ne_zero 2 h))
        nlinarith [sq_nonneg A, sq_nonneg B]
  have hdiv : ∀ m, m < vertices.length →
      (Model.getFacetWeightedNormals vertices indices)[m]? =
        some (facetAccum vertices indices m /
          Real.sqrt (facetAccum vertices indices (3 * (m / 3)) ^ 2 +
            facetAccum vertices indices (3 * (m / 3) + 1) ^ 2 +
            facetAccum vertices indices (3 * (m / 3) + 2) ^ 2)) :=
    fun m hm => getFacetWeightedNormals_getElem? vertices indices m hm
  have e0 := hdiv (3 * k) (by omega)
  have e1 := hdiv (3 * k + 1) (by omega)
  have e2 := hdiv (3 * k + 2) (by omega)
  have hb0 : 3 * (3 * k / 3) = 3 * k := by omega
  have hb1 : 3 * ((3 * k + 1) / 3) = 3 * k := by omega
  have hb2 : 3 * ((3 * k + 2) / 3) = 3 * k := by omega
  rw [hb0] at e0
  rw [hb1] at e1
  rw [hb2] at e2
  refine ⟨A / Real.sqrt (A ^ 2 + B ^ 2 + C ^ 2),
    B / Real.sqrt (A ^ 2 + B ^ 2 + C ^ 2),
    C / Real.sqrt (A ^ 2 + B ^ 2 + C ^ 2), e0, e1, e2, ?_⟩
  rw [div_pow, div_pow, div_pow, Real.sq_sqrt hS.le, div_add_div_same,
    div_add_div_same, div_self (ne_of_gt hS)]

/-- C5 counterexample: at the valid parameter set `radius = 1`,
`amplitude = 0`, `waveCount = 0`, `segmentsU = segmentsV = 1` every
triangle of the generated mesh is degenerate (`segmentsU = 1` makes the
two grid columns coincide at the seam), every accumulated vector is
zero, the final division is a division by zero, and the resulting
facet-weighted "normal" of the first vertex is the zero vector — not
unit length. -/
theorem C5_counterexample :
    (Model.getFacetWeightedNormals (Model.getVertices 1 0 0 1 1)
        (Model.getIndices 1 1))[0]? = some 0 ∧
      (Model.getFacetWeightedNormals (Model.getVertices 1 0 0 1 1)
        (Model.getIndices 1 1))[1]? = some 0 ∧
      (Model.getFacetWeightedNormals (Model.getVertices 1 0 0 1 1)
        (Model.getIndices 1 1))[2]? = some 0 ∧
      ((0 : ℝ) ^ 2 + 0 ^ 2 + 0 ^ 2 ≠ 1) := by
  have hI : Model.getIndices 1 1 = [0, 2, 1, 1, 2, 3] := by decide
  have hlen : (Model.getVertices 1 0 0 1 1).length = (1 + 1) * (1 + 1) * 3 := by
    rw [getVertices_eq]
    exact grid_length 3 _ _ _ (fun i j => rfl)
  have hseam0 := specVertex_seam 1 0 0 1 1 0 (by norm_num)
  have hseam1 := specVertex_seam 1 0 0 1 1 1 (by norm_num)
  have hd00 := flatTriple_getD (specVertex 1 0 0 1 1) (1 + 1) (1 + 1) 0 0
    (by norm_num) (by norm_num)
  have hd01 := flatTriple_getD (specVertex 1 0 0 1 1) (1 + 1) (1 + 1) 0 1
    (by norm_num) (by norm_num)
  have hd10 := flatTriple_getD (specVertex 1 0 0 1 1) (1 + 1) (1 + 1) 1 0
    (by norm_num) (by norm_num)
  have hd11 := flatTriple_getD (specVertex 1 0 0 1 1) (1 + 1) (1 + 1) 1 1
    (by norm_num) (by norm_num)
  rw [← getVertices_eq 1 0 0 1 1] at hd00 hd01 hd10 hd11
  have hcross1 : weightedCross (Model.getVertices 1 0 0 1 1) (0, 2, 1) =
      (0, 0, 0) := by
    apply weightedCross_zero_of_eq_left
    · exact hd10.1.trans ((congrArg Prod.fst hseam0).symm.trans hd00.1.symm)
    · exact hd10.2.1.trans
        ((congrArg (fun p => p.2.1) hseam0).symm.trans hd00.2.1.symm)
    · exact hd10.2.2.trans
        ((congrArg (fun p => p.2.2) hseam0).symm.trans hd00.2.2.symm)
  have hcross2 : weightedCross (Model.getVertices 1 0 0 1 1) (1, 2, 3) =
      (0, 0, 0) := by
    apply weightedCross_zero_of_eq_right
    · exact hd11.1.trans ((congrArg Prod.fst hseam1).symm.trans hd01.1.symm)
    · exact hd11.2.1.trans
        ((congrArg (fun p => p.2.1) hseam1).symm.trans hd01.2.1.symm)
    · exact hd11.2.2.trans
        ((congrArg (fun p => p.2.2) hseam1).symm.trans hd01.2.2.symm)
  have hAcc : ∀ m, facetAccum (Model.getVertices 1 0 0 1 1)
      (Model.getIndices 1 1) m = 0 := by
    intro m
    rw [hI]
    unfold facetAccum
    rw [show triples [0, 2, 1, 1, 2, 3] = [(0, 2, 1), (1, 2, 3)] from rfl]
    simp only [List.map_cons, List.map_nil, List.sum_cons, List.sum_nil]
    unfold triDeposit
    rw [hcross1, hcross2]
    simp [slotDeposit]
  have hfinal : ∀ m, m < 12 →
      (Model.getFacetWeightedNormals (Model.getVertices 1 0 0 1 1)
        (Model.getIndices 1 1))[m]? = some 0 := by
    intro m hm
    rw [getFacetWeightedNormals_getElem? _ _ m (by rw [hlen]; norm_num; omega)]
    rw [hAcc, hAcc, hAcc, hAcc]
    norm_num
  exact ⟨hfinal 0 (by norm_num), hfinal 1 (by norm_num),
    hfinal 2 (by norm_num), by norm_num⟩

/-- C5 witness: the amended theorem applied to a one-triangle mesh with
a nonzero accumulator (vertices `(0,0,0), (1,0,0), (0,1,0)`, index
triple `(0, 1, 2)`), at vertex `k = 0`. -/
theorem C5_witness :
    (3 * 0 + 2 < ([0, 0, 0, 1, 0, 0, 0, 1, 0] : List ℝ).length) ∧
      (¬ (facetAccum [0, 0, 0, 1, 0, 0, 0, 1, 0] [0, 1, 2] (3 * 0) = 0 ∧
        facetAccum [0, 0, 0, 1, 0, 0, 0, 1, 0] [0, 1, 2] (3 * 0 + 1) = 0 ∧
        facetAccum [0, 0, 0, 1, 0, 0, 0, 1, 0] [0, 1, 2] (3 * 0 + 2) = 0)) ∧
      (∃ nx ny nz : ℝ,
        (Model.getFacetWeightedNormals [0, 0, 0, 1, 0, 0, 0, 1, 0]
          [0, 1, 2])[3 * 0]? = some nx ∧
        (Model.getFacetWeightedNormals [0, 0, 0, 1, 0, 0, 0, 1, 0]
          [0, 1, 2])[3 * 0 + 1]? = some ny ∧
        (Model.getFacetWeightedNormals [0, 0, 0, 1, 0, 0, 0, 1, 0]
          [0, 1, 2])[3 * 0 + 2]? = some nz ∧
        nx ^ 2 + ny ^ 2 + nz ^ 2 = 1) := by
  have hw : weightedCross [0, 0, 0, 1, 0, 0, 0, 1, 0] (0, 1, 2) =
      (0, 0, 1) := by
    simp only [weightedCross]
    norm_num [List.getD_cons_zero, List.getD_cons_succ]
  have hacc2 : facetAccum [0, 0, 0, 1, 0, 0, 0, 1, 0] [0, 1, 2] (3 * 0 + 2) =
      1 := by
    unfold facetAccum
    rw [show triples [0, 1, 2] = [(0, 1, 2)] from rfl]
    simp only [List.map_cons, List.map_nil, List.sum_cons, List.sum_nil]
    unfold triDeposit
    rw [hw]
    norm_num [slotDeposit]
  have hk : 3 * 0 + 2 < ([0, 0, 0, 1, 0, 0, 0, 1, 0] : List ℝ).length := by
    norm_num
  have hnz : ¬ (facetAccum [0, 0, 0, 1, 0, 0, 0, 1, 0] [0, 1, 2] (3 * 0) = 0 ∧
      facetAccum [0, 0, 0, 1, 0, 0, 0, 1, 0] [0, 1, 2] (3 * 0 + 1) = 0 ∧
      facetAccum [0, 0, 0, 1, 0, 0, 0, 1, 0] [0, 1, 2] (3 * 0 + 2) = 0) := by
    intro h
    rw [hacc2] at h
    exact one_ne_zero h.2.2
  exact ⟨hk, hnz,
    C5_unit_normals_when_accum_nonzero [0, 0, 0, 1, 0, 0, 0, 1, 0] [0, 1, 2]
      0 hk hnz⟩

/-- C10 counterexample: for the larger grid `segmentsU = 256`,
`segmentsV = 255` (vertex count `257 * 256 = 65792 > 65536`) the
uploaded Uint16 index list does wrap (it differs from the generated
list), yet — contrary to the claim's final clause — the
every-index-below-vertex-count invariant still holds for the uploaded
data, because wrapped values are below `65536 < 65792`. -/
theorem C10_counterexample :
    65536 < (256 + 1) * (255 + 1) ∧
      Model.uploadedIndices 256 255 ≠ Model.getIndices 256 255 ∧
      ∀ x ∈ Model.uploadedIndices 256 255, x < (256 + 1) * (255 + 1) := by
  refine ⟨by norm_num, ?_, ?_⟩
  · intro h
    have hmem : (256 + 1) * (255 + 1) - 1 ∈ Model.getIndices 256 255 :=
      getIndices_max_mem 256 255 (by norm_num) (by norm_num)
    have hfix := map_eq_self_fix (fun x => x % 65536)
      (Model.getIndices 256 255) h _ hmem
    norm_num at hfix
  · intro x hx
    simp only [Model.uploadedIndices, List.mem_map] at hx
    obtain ⟨y, hy, rfl⟩ := hx
    have h1 : y % 65536 < 65536 := Nat.mod_lt _ (by norm_num)
    omega

/-- C10 amended: `bufferData` stores each generated index modulo
`2^16`; the uploaded list represents the generated list exactly iff
every index is below `65536`, which (the largest emitted index being
`(sU+1)(sV+1) - 1`) holds iff `(sU+1)*(sV+1) ≤ 65536`; for larger grids
the uploaded list differs from the generated one (indices silently
wrap), but every uploaded index is still below the vertex count, the
wrapped values being smaller than the originals. -/
theorem C10_uint16_upload (sU sV : ℕ) (hU : 1 ≤ sU) (hV : 1 ≤ sV) :
    Model.uploadedIndices sU sV =
        (Model.getIndices sU sV).map (fun x => x % 2 ^ 16) ∧
    (Model.uploadedIndices sU sV = Model.getIndices sU sV ↔
      ∀ x ∈ Model.getIndices sU sV, x < 65536) ∧
    ((∀ x ∈ Model.getIndices sU sV, x < 65536) ↔
      (sU + 1) * (sV + 1) ≤ 65536) ∧
    ((sU + 1) * (sV + 1) > 65536 →
      Model.uploadedIndices sU sV ≠ Model.getIndices sU sV) ∧
    ∀ x ∈ Model.uploadedIndices sU sV, x < (sU + 1) * (sV + 1) := by
  have hbound := getIndices_mem_lt sU sV
  have hmax := getIndices_max_mem sU sV hU hV
  have hiff1 : Model.uploadedIndices sU sV = Model.getIndices sU sV ↔
      ∀ x ∈ Model.getIndices sU sV, x < 65536 := by
    constructor
    · intro h x hx
      have hfix : x % 65536 = x := map_eq_self_fix (fun y => y % 65536)
        (Model.getIndices sU sV) h x hx
      omega
    · intro h
      unfold Model.uploadedIndices
      have : ∀ x ∈ Model.getIndices sU sV,
          (fun y => y % 65536) x = id x := by
        intro x hx
        simp only [id]
        exact Nat.mod_eq_of_lt (h x hx)
      rw [List.map_congr_left this, List.map_id]
  have hiff2 : (∀ x ∈ Model.getIndices sU sV, x < 65536) ↔
      (sU + 1) * (sV + 1) ≤ 65536 := by
    constructor
    · intro h
      have := h _ hmax
      have hpos : 1 ≤ (sU + 1) * (sV + 1) := Nat.one_le_iff_ne_zero.mpr
        (by positivity)
      omega
    · intro h x hx
      have := hbound x hx
      omega
  refine ⟨by norm_num [Model.uploadedIndices], hiff1, hiff2, ?_, ?_⟩
  · intro hgt h
    have := hiff2.mp (hiff1.mp h)
    omega
  · intro x hx
    simp only [Model.uploadedIndices, List.mem_map] at hx
    obtain ⟨y, hy, rfl⟩ := hx
    have h1 := hbound y hy
    have h2 : y % 65536 ≤ y := Nat.mod_le y 65536
    omega

/-- C10 witness: the amended theorem applied at `sU = sV = 1`. -/
theorem C10_witness :
    1 ≤ 1 ∧ 1 ≤ 1 ∧
      Model.uploadedIndices 1 1 =
        (Model.getIndices 1 1).map (fun x => x % 2 ^ 16) :=
  ⟨by decide, by decide, (C10_uint16_upload 1 1 (by decide) (by decide)).1⟩

end CorrugatedSphere
